import Mathlib

/-!
Verification development for the multi-strategy occupancy-rate extraction
engine of `src/main.py` (`get_occupancy_rate` and its helper scanners).

The Python code is shallowly embedded as follows.

* Strings are `List Char` (`Str`); document parsing (BeautifulSoup) is outside
  the core, so a `Document` carries the parsed artefacts the code reads:
  the inline XBRL facts, the table rows' cell texts, and the two flattened
  text renderings (`page_text` for the closeness search, `text` for the
  table-phrase and pattern stages).
* Python `float` values are modelled as exact rationals `ℚ`; all decimal
  string parsing, comparison, rounding (`round(x, n)`, banker's rounding)
  and median arithmetic is exact.  To keep every definition kernel-evaluable
  we only build rationals through `mkRat` / `Rat.num` / `Rat.den`
  (the `Rat.add/mul/sub` field operations are `@[irreducible]`);
  bridge lemmas identify these with the ordinary field operations.
* The regular expressions of the source are embedded by a small backtracking
  matcher whose alternative lists are ordered exactly by Python's
  leftmost / first-alternative / greedy-preference semantics, so the head of
  the returned list is the match Python's `re` engine produces.
-/

/-! ### Kernel-friendly rational arithmetic -/

/-- Floor of a rational, written so it kernel-reduces
(`Int` division is euclidean division, which is floor division for a
positive denominator). -/
def ratFloor (q : ℚ) : ℤ := q.num / q.den

theorem ratFloor_eq (q : ℚ) : ratFloor q = ⌊q⌋ := by
  rw [Rat.floor_def]; rfl

/-- Embed an integer into `ℚ` through `mkRat` (kernel-reduces). -/
def qInt (z : ℤ) : ℚ := mkRat z 1

theorem qInt_eq (z : ℤ) : qInt z = (z : ℚ) := by
  simp [qInt, Rat.mkRat_eq_div]

/-- Exact subtraction on `ℚ` through `mkRat` (kernel-reduces). -/
def qsub (a b : ℚ) : ℚ := mkRat (a.num * b.den - b.num * a.den) (a.den * b.den)

theorem qsub_eq (a b : ℚ) : qsub a b = a - b := by
  have ha : (a.den : ℚ) ≠ 0 := by exact_mod_cast a.den_nz
  have hb : (b.den : ℚ) ≠ 0 := by exact_mod_cast b.den_nz
  conv_rhs => rw [← Rat.num_div_den a, ← Rat.num_div_den b]
  rw [div_sub_div _ _ ha hb, qsub, Rat.mkRat_eq_div]
  push_cast
  ring_nf

/-- Multiplication by a natural number through `mkRat` (kernel-reduces). -/
def qmulNat (q : ℚ) (n : ℕ) : ℚ := mkRat (q.num * n) q.den

theorem qmulNat_eq (q : ℚ) (n : ℕ) : qmulNat q n = q * n := by
  conv_rhs => rw [← Rat.num_div_den q]
  rw [qmulNat, Rat.mkRat_eq_div, div_mul_eq_mul_div]
  push_cast
  ring_nf

/-- Division of an integer by a positive natural through `mkRat`
(kernel-reduces). -/
def qdivNat (z : ℤ) (n : ℕ) : ℚ := mkRat z n

theorem qdivNat_eq (z : ℤ) (n : ℕ) : qdivNat z n = (z : ℚ) / n := by
  rw [qdivNat, Rat.mkRat_eq_div]

/-- `abs (a - b) ≤ t`, phrased through `qsub` so it kernel-reduces. -/
def qdistLe (a b t : ℚ) : Bool := decide (qsub a b ≤ t) && decide (qsub b a ≤ t)

theorem qdistLe_iff (a b t : ℚ) : qdistLe a b t = true ↔ |a - b| ≤ t := by
  rw [qdistLe, Bool.and_eq_true, decide_eq_true_iff, decide_eq_true_iff,
    qsub_eq, qsub_eq, abs_sub_le_iff]

/-- Banker's rounding of a rational to an integer: round to nearest,
ties to even.  This is the exact-arithmetic model of Python's `round`. -/
def rhe (q : ℚ) : ℤ :=
  if qsub q (qInt (ratFloor q)) < mkRat 1 2 then ratFloor q
  else if mkRat 1 2 < qsub q (qInt (ratFloor q)) then ratFloor q + 1
  else if ratFloor q % 2 = 0 then ratFloor q else ratFloor q + 1

/-- `rhe q` is `⌊q⌋` or `⌊q⌋ + 1`. -/
theorem rhe_floor_or_succ (q : ℚ) : rhe q = ⌊q⌋ ∨ rhe q = ⌊q⌋ + 1 := by
  unfold rhe
  split_ifs <;> rw [ratFloor_eq] <;> omega

theorem rhe_le {q : ℚ} {B : ℤ} (h : q ≤ (B : ℚ)) : rhe q ≤ B := by
  have hfl : ⌊q⌋ ≤ B := by
    calc ⌊q⌋ ≤ ⌊(B : ℚ)⌋ := Int.floor_le_floor h
    _ = B := Int.floor_intCast B
  rcases rhe_floor_or_succ q with he | he
  · omega
  · rcases eq_or_lt_of_le h with hq | hq
    · exfalso
      have hr : qsub q (qInt (ratFloor q)) < mkRat 1 2 := by
        have h0 : qsub q (qInt (ratFloor q)) = 0 := by
          rw [qsub_eq, qInt_eq, ratFloor_eq, hq, Int.floor_intCast, sub_self]
        rw [h0, Rat.mkRat_eq_div]
        norm_num
      unfold rhe at he
      rw [if_pos hr, ratFloor_eq] at he
      omega
    · have hlt : ⌊q⌋ < B := by
        have h2 : (⌊q⌋ : ℚ) < (B : ℚ) := lt_of_le_of_lt (Int.floor_le q) hq
        exact_mod_cast h2
      omega

theorem rhe_ge {q : ℚ} {A : ℤ} (h : (A : ℚ) ≤ q) : A ≤ rhe q := by
  have := Int.le_floor.2 h
  rcases rhe_floor_or_succ q with he | he <;> omega

/-- Python `round(x, 2)` on exact rationals. -/
def round2 (q : ℚ) : ℚ := qdivNat (rhe (qmulNat q 100)) 100

/-- Python `round(x, 1)` on exact rationals. -/
def round1 (q : ℚ) : ℚ := qdivNat (rhe (qmulNat q 10)) 10

theorem round2_bounds {q : ℚ} {A B : ℤ} (hA : (A : ℚ) ≤ q) (hB : q ≤ (B : ℚ)) :
    (A : ℚ) ≤ round2 q ∧ round2 q ≤ (B : ℚ) := by
  have h1 : ((A * 100 : ℤ) : ℚ) ≤ qmulNat q 100 := by
    rw [qmulNat_eq]
    push_cast
    nlinarith [hA]
  have h2 : qmulNat q 100 ≤ ((B * 100 : ℤ) : ℚ) := by
    rw [qmulNat_eq]
    push_cast
    nlinarith [hB]
  have hge := rhe_ge h1
  have hle := rhe_le h2
  constructor
  · rw [round2, qdivNat_eq, le_div_iff (by norm_num : (0:ℚ) < (100:ℕ))]
    push_cast
    have : ((A * 100 : ℤ) : ℚ) ≤ ((rhe (qmulNat q 100) : ℤ) : ℚ) := by exact_mod_cast hge
    push_cast at this
    linarith
  · rw [round2, qdivNat_eq, div_le_iff (by norm_num : (0:ℚ) < (100:ℕ))]
    push_cast
    have : ((rhe (qmulNat q 100) : ℤ) : ℚ) ≤ ((B * 100 : ℤ) : ℚ) := by exact_mod_cast hle
    push_cast at this
    linarith

theorem round1_bounds {q : ℚ} {A B : ℤ} (hA : (A : ℚ) ≤ q) (hB : q ≤ (B : ℚ)) :
    (A : ℚ) ≤ round1 q ∧ round1 q ≤ (B : ℚ) := by
  have h1 : ((A * 10 : ℤ) : ℚ) ≤ qmulNat q 10 := by
    rw [qmulNat_eq]
    push_cast
    nlinarith [hA]
  have h2 : qmulNat q 10 ≤ ((B * 10 : ℤ) : ℚ) := by
    rw [qmulNat_eq]
    push_cast
    nlinarith [hB]
  have hge := rhe_ge h1
  have hle := rhe_le h2
  constructor
  · rw [round1, qdivNat_eq, le_div_iff (by norm_num : (0:ℚ) < (10:ℕ))]
    push_cast
    have : ((A * 10 : ℤ) : ℚ) ≤ ((rhe (qmulNat q 10) : ℤ) : ℚ) := by exact_mod_cast hge
    push_cast at this
    linarith
  · rw [round1, qdivNat_eq, div_le_iff (by norm_num : (0:ℚ) < (10:ℕ))]
    push_cast
    have : ((rhe (qmulNat q 10) : ℤ) : ℚ) ≤ ((B * 10 : ℤ) : ℚ) := by exact_mod_cast hle
    push_cast at this
    linarith

/-- Any `round2` result is an integer number of hundredths. -/
theorem round2_hundredths (q : ℚ) : ∃ k : ℤ, round2 q = (k : ℚ) / 100 := by
  exact ⟨rhe (qmulNat q 100), by rw [round2, qdivNat_eq]; norm_num⟩

/-- Any `round1` result is an integer number of hundredths as well. -/
theorem round1_hundredths (q : ℚ) : ∃ k : ℤ, round1 q = (k : ℚ) / 100 := by
  refine ⟨rhe (qmulNat q 10) * 10, ?_⟩
  rw [round1, qdivNat_eq]
  push_cast
  ring_nf

/-! ### Strings as character lists -/

/-- Strings of the embedded program are raw character lists. -/
abbrev Str := List Char

/-- ASCII lower-casing, the model of Python's `.lower()` / `re.IGNORECASE`
on the ASCII documents handled here. -/
def asciiLower (c : Char) : Char :=
  if 'A' ≤ c ∧ c ≤ 'Z' then Char.ofNat (c.toNat + 32) else c

def lowerStr (s : Str) : Str := s.map asciiLower

/-- Python `str.upper()` for ASCII. -/
def asciiUpper (c : Char) : Char :=
  if 'a' ≤ c ∧ c ≤ 'z' then Char.ofNat (c.toNat - 32) else c

def upperStr (s : Str) : Str := s.map asciiUpper

/-- The whitespace class of Python's `\s` and `str.strip()`. -/
def isSpaceChar (c : Char) : Bool :=
  c = ' ' ∨ c = '\t' ∨ c = '\n' ∨ c = '\r' ∨ c = '\x0b' ∨ c = '\x0c'

def isDigitChar (c : Char) : Bool := '0' ≤ c ∧ c ≤ '9'

/-- Python `str.strip()`. -/
def pyStrip (s : Str) : Str :=
  ((s.dropWhile isSpaceChar).reverse.dropWhile isSpaceChar).reverse

/-- Substring containment (`needle in haystack` on Python strings). -/
def containsSub (hay needle : Str) : Bool :=
  match hay with
  | [] => needle.isEmpty
  | _ :: t => needle.isPrefixOf hay || containsSub t needle

theorem containsSub_of_prefix {hay needle : Str} (h : needle.isPrefixOf hay) :
    containsSub hay needle = true := by
  cases hay with
  | nil =>
    cases needle with
    | nil => rfl
    | cons c t => simp [List.isPrefixOf] at h
  | cons c t => simp [containsSub, h]

/-- `containsSub` really is infix containment. -/
theorem containsSub_iff (hay needle : Str) :
    containsSub hay needle = true ↔ needle <:+: hay := by
  induction hay with
  | nil =>
    simp only [containsSub, List.isEmpty_iff]
    constructor
    · rintro rfl
      exact List.infix_rfl
    · intro h
      exact List.eq_nil_of_infix_nil h
  | cons c t ih =>
    simp only [containsSub, Bool.or_eq_true, ih]
    constructor
    · rintro (h | h)
      · exact ((List.isPrefixOf_iff_prefix).1 h).isInfix
      · rcases h with ⟨s, u, hsu⟩
        exact ⟨c :: s, u, by rw [← hsu]; rfl⟩
    · intro h
      rcases h with ⟨s, u, hsu⟩
      cases s with
      | nil =>
        left
        rw [List.isPrefixOf_iff_prefix]
        exact ⟨u, by simpa using hsu⟩
      | cons x xs =>
        right
        have h2 : xs ++ needle ++ u = t := by
          have := hsu
          simp only [List.cons_append, List.cons.injEq] at this
          exact this.2
        exact ⟨xs, u, h2⟩

/-- Numeric value of a digit string (most significant first). -/
def digitsVal (ds : Str) : ℕ := ds.foldl (fun a c => a * 10 + (c.toNat - 48)) 0

/-- Python `float(s)` for the decimal shapes `\d+(\.\d*)?` produced by the
source's regexes (also accepts a bare integer string). -/
def parseNum (s : Str) : ℚ :=
  let d1 := s.takeWhile isDigitChar
  match s.dropWhile isDigitChar with
  | '.' :: d2 => mkRat (digitsVal d1 * 10 ^ d2.length + digitsVal d2) (10 ^ d2.length)
  | _ => mkRat (digitsVal d1) 1

/-- Full-match test for `^\d+\.?\d*$` (the XBRL numeric-shape check). -/
def isDecimalString (s : Str) : Bool :=
  match s.takeWhile isDigitChar, s.dropWhile isDigitChar with
  | [], _ => false
  | _, [] => true
  | _, '.' :: r => r.all isDigitChar
  | _, _ => false

/-! ### A tiny backtracking regex engine

A matcher maps a state (remaining input, optional capture of group 1) to the
list of successor states **in Python `re` priority order**: the head of the
final state list is the match Python's engine returns.  Greedy pieces emit
longest-first alternatives, lazy pieces shortest-first, `|` in source order.
Backtracking alternatives of `\d+\.?\d*` that stop in the middle of a digit
run are omitted: every continuation in the embedded patterns starts with
`%`, whitespace or a letter, so such alternatives can never complete. -/

structure MState where
  rest : Str
  cap : Option Str
deriving DecidableEq, Repr

/-- A matcher returns successor states in priority order. -/
abbrev Matcher := MState → List MState

/-- Literal string. -/
def mlit (w : Str) : Matcher := fun st =>
  if w.isPrefixOf st.rest then [⟨st.rest.drop w.length, st.cap⟩] else []

def sLit (w : String) : Matcher := mlit w.toList

/-- Sequencing, preserving priority order. -/
def mseq (p q : Matcher) : Matcher := fun st => (p st).flatMap q

def mseqs (l : List Matcher) : Matcher := l.foldr mseq (fun st => [st])

/-- Ordered alternation (`|`). -/
def malt (p q : Matcher) : Matcher := fun st => p st ++ q st

/-- Greedy option (`(?:...)?`): try the piece first, then skip it. -/
def mopt (p : Matcher) : Matcher := fun st => p st ++ [st]

/-- First-match-priority alternation over literal words. -/
def altWords (ws : List String) : Matcher :=
  ws.foldr (fun w acc => malt (sLit w) acc) (fun _ => [])

/-- Greedy `\s*`: consume as much whitespace as possible, longest first. -/
def wsStar : Matcher := fun st =>
  let k := (st.rest.takeWhile isSpaceChar).length
  (List.range (k + 1)).map (fun i => ⟨st.rest.drop (k - i), st.cap⟩)

/-- Greedy `\s+` (at least one whitespace character). -/
def wsPlus : Matcher := fun st =>
  let k := (st.rest.takeWhile isSpaceChar).length
  (List.range k).map (fun i => ⟨st.rest.drop (k - i), st.cap⟩)

/-- Suffix states for lazy `.*?`: shortest first, never crossing a newline. -/
def dotLazyStates : Str → List Str
  | [] => [[]]
  | c :: cs => (c :: cs) :: (if c = '\n' then [] else dotLazyStates cs)

def mdotLazy : Matcher := fun st => (dotLazyStates st.rest).map (⟨·, st.cap⟩)

/-- Greedy bounded negated class `[^...]{0,n}`: longest first. -/
def mclassNeg (banned : List Char) (n : ℕ) : Matcher := fun st =>
  let k := min n (st.rest.takeWhile (fun c => ¬ banned.contains c)).length
  (List.range (k + 1)).map (fun i => ⟨st.rest.drop (k - i), st.cap⟩)

/-- Optional single character from a class (`[:\-]?`). -/
def mcharOpt (cs : List Char) : Matcher := fun st =>
  match st.rest with
  | c :: r => if cs.contains c then [⟨r, st.cap⟩, st] else [st]
  | [] => [st]

/-- The number shape `\d+\.?\d*`, optionally capturing the consumed token as
group 1.  Alternatives in priority order: full `d1 . d2`, then `d1` alone
(see the module comment on omitted dead alternatives). -/
def mnum (capture : Bool) : Matcher := fun st =>
  let d1 := st.rest.takeWhile isDigitChar
  if d1.isEmpty then []
  else
    let r1 := st.rest.drop d1.length
    let alts : List (Str × Str) :=
      match r1 with
      | '.' :: r2 =>
        let d2 := r2.takeWhile isDigitChar
        [(d1 ++ '.' :: d2, r2.drop d2.length), (d1, r1)]
      | _ => [(d1, r1)]
    alts.map (fun a => ⟨a.2, if capture then some a.1 else st.cap⟩)

/-- Run a matcher at the current position; return Python's match
(consumed length and capture) if any. -/
def runMatcher (m : Matcher) (s : Str) : Option (ℕ × Str) :=
  match m ⟨s, none⟩ with
  | [] => none
  | st :: _ => some (s.length - st.rest.length, st.cap.getD [])

/-- `re.finditer`: non-overlapping matches, scanning left to right.
Returns `(start, end, capture)` triples. -/
def findIterGo (m : Matcher) : ℕ → ℕ → Str → List (ℕ × ℕ × Str)
  | 0, _, _ => []
  | fuel + 1, pos, s =>
    match runMatcher m s with
    | some (len, cap) =>
      (pos, pos + len, cap) :: findIterGo m fuel (pos + max len 1) (s.drop (max len 1))
    | none =>
      match s with
      | [] => []
      | _ :: rest => findIterGo m fuel (pos + 1) rest

def findIter (m : Matcher) (s : Str) : List (ℕ × ℕ × Str) :=
  findIterGo m (s.length + 1) 0 s

/-! ### The pattern library (src/main.py lines 186-198)

Each regex of the `patterns` list is embedded as a matcher run on the
lower-cased text (the Python code compiles them with `re.IGNORECASE`). -/

def pat1 : Matcher := mseqs [sLit "decreased", wsPlus,
  mopt (mseqs [sLit "approximately", wsPlus]),
  mnum false, sLit "%", wsPlus, sLit "to", wsPlus, mnum true, sLit "%"]

def pat2 : Matcher := mseqs [sLit "increased", wsPlus,
  mopt (mseqs [sLit "approximately", wsPlus]),
  mnum false, sLit "%", wsPlus, sLit "to", wsPlus, mnum true, sLit "%"]

def pat3 : Matcher := mseqs [sLit "percent", wsPlus, sLit "leased", wsStar,
  mopt (altWords ["was", "is", "remained", "stood"]), wsStar,
  mcharOpt [':', '-'], wsStar, mnum true, sLit "%"]

def pat4 : Matcher := mseqs [sLit "percentage", wsPlus, sLit "leased", wsStar,
  mopt (altWords ["was", "is", "remained", "stood"]), wsStar,
  mcharOpt [':', '-'], wsStar, mnum true, sLit "%"]

def pat5 : Matcher := mseqs [sLit "properties", mdotLazy, sLit "leased",
  mdotLazy, mnum true, sLit "%"]

def pat6 : Matcher := mseqs [sLit "leased", wsStar,
  mopt (altWords ["was", "is", "stood"]), wsStar,
  mcharOpt [':', '-'], wsStar, mnum true, sLit "%"]

def pat7 : Matcher := mseqs [sLit "occupancy", wsStar,
  mopt (altWords ["was", "is", "stood", "remained"]), wsStar,
  mcharOpt [':', '-'], wsStar, mnum true, sLit "%"]

def pat8 : Matcher := mseqs [sLit "portfolio", wsPlus,
  altWords ["was", "is"], wsPlus, mnum true, sLit "%", wsPlus,
  altWords ["leased", "occupied"]]

def pat9 : Matcher := mseqs [mnum true, sLit "%", wsPlus,
  altWords ["leased", "occupied"]]

def pat10 : Matcher := mseqs [mnum true, sLit "%", wsPlus, sLit "of", wsPlus,
  sLit "our", wsPlus, altWords ["properties", "portfolio"]]

def pat11 : Matcher := mseqs [sLit "same", wsStar, sLit "store",
  mclassNeg ['.', '?', '!'] 1000, mnum true, sLit "%"]

def patternsList : List Matcher :=
  [pat1, pat2, pat3, pat4, pat5, pat6, pat7, pat8, pat9, pat10, pat11]

/-- All pattern-library matches over the text, in Python iteration order:
pattern by pattern, then position by position. -/
def patternRawMatches (text : Str) : List (ℕ × ℕ × Str) :=
  patternsList.flatMap (fun p => findIter p (lowerStr text))

/-- The `table_pattern` regex
`(?:percent|percentage)\s+leased.*?(\d+\.?\d*)\s*(%|percent)`
(src/main.py line 172). -/
def tableMatcher : Matcher := mseqs [malt (sLit "percent") (sLit "percentage"),
  wsPlus, sLit "leased", mdotLazy, mnum true, wsStar,
  malt (sLit "%") (sLit "percent")]

/-! ### Result records -/

/-- A success dictionary of `get_occupancy_rate`. -/
structure SuccessRec where
  ticker : Str
  occupancy_rate : ℚ
  source : Str
  context : Str
  filing_url : Str
deriving DecidableEq, Repr

/-- The outcome of `get_occupancy_rate`: a success dictionary or an error
dictionary `{"error": msg, "ticker": t}`. -/
inductive ExtractionResult where
  | success (r : SuccessRec)
  | failure (error : Str) (ticker : Str)
deriving DecidableEq, Repr

/-! ### Structured-Fact Scanner (XBRL, src/main.py lines 77-96) -/

/-- One inline tagged fact: its `contextref` attribute, the text of its
parent and grandparent markup nodes, and its own stripped text. -/
structure XbrlFact where
  contextref : Str
  parentText : Str
  gpText : Str
  numText : Str
deriving DecidableEq, Repr

def xbrlKeywords : List Str :=
  ["occupancy", "leased", "percent leased", "portfolio", "properties leased"].map
    String.toList

/-- The per-tag body of the XBRL loop: `none` means the loop continues. -/
def factCandidate (f : XbrlFact) : Option (ℚ × Str) :=
  if containsSub (lowerStr f.contextref) "current".toList
      || containsSub (lowerStr f.contextref) "asof".toList then
    let parent_text := pyStrip (f.gpText ++ ' ' :: f.parentText)
    if xbrlKeywords.any (fun kw => containsSub (lowerStr parent_text) kw) then
      let num := f.numText.filter (fun c => c ≠ ',')
      if isDecimalString num then
        let perc := parseNum num
        if 50 ≤ perc ∧ perc ≤ 100 then some (perc, parent_text) else none
      else none
    else none
  else none

def structuredR (ticker form url : Str) (facts : List XbrlFact) :
    Option SuccessRec :=
  facts.findSome? (fun f => (factCandidate f).map (fun vc =>
    ⟨ticker, round2 vc.1, "XBRL (".toList ++ form ++ ")".toList, vc.2, url⟩))

/-! ### Tabular Scanner (`extract_tables`, src/main.py lines 102-117) -/

def tableKeywords : List Str :=
  ["occupancy", "percent", "leased", "occupied", "same-store"].map String.toList

/-- `" ".join(cells)`. -/
def joinSpace : List Str → Str
  | [] => []
  | c :: cs => c ++ cs.flatMap (fun x => ' ' :: x)

/-- Attempted match of `(\d+\.?\d*)\s*%` anchored at the current position:
maximal digit run, optional `.` plus maximal digit run, then `\s*%`. -/
def pctTokAt (s : Str) : Option Str :=
  let d1 := s.takeWhile isDigitChar
  if d1.isEmpty then none
  else
    match s.drop d1.length with
    | '.' :: r2 =>
      let d2 := r2.takeWhile isDigitChar
      if ((r2.drop d2.length).dropWhile isSpaceChar).headD ' ' = '%' then
        some (d1 ++ '.' :: d2)
      else none
    | r1 =>
      if (r1.dropWhile isSpaceChar).headD ' ' = '%' then some d1 else none

/-- `re.search(r"(\d+\.?\d*)\s*%", c)`: value of the leftmost match. -/
def pctSearch : Str → Option ℚ
  | [] => none
  | c :: rest =>
    match pctTokAt (c :: rest) with
    | some tok => some (parseNum tok)
    | none => pctSearch rest

def extract_tables (tables : List (List (List Str))) : List ℚ :=
  tables.flatMap (fun rows => rows.flatMap (fun cells =>
    if tableKeywords.any (fun kw => containsSub (lowerStr (joinSpace cells)) kw) then
      cells.filterMap (fun c =>
        match pctSearch c with
        | some v => if 50 ≤ v ∧ v ≤ 100 then some v else none
        | none => none)
    else []))

/-! ### Proximity Scanner (`closeness_search`, src/main.py lines 119-132) -/

def natDist (a b : ℕ) : ℕ := max a b - min a b

/-- Label keyword occurrences (`re.finditer(r"occupancy|leased|percent", text, re.I)`). -/
def closeLabels (text : Str) : List ℕ :=
  (findIter (altWords ["occupancy", "leased", "percent"]) (lowerStr text)).map
    (fun m => m.1)

/-- Percent value occurrences (`re.finditer(r"(\d+\.?\d*)%", text)`). -/
def closeValues (text : Str) : List (ℕ × ℚ) :=
  (findIter (mseqs [mnum true, sLit "%"]) text).map
    (fun m => (m.1, parseNum m.2.2))

/-- The label/value pairs in the nested-loop iteration order. -/
def closePairs (text : Str) : List (ℕ × ℕ × ℚ) :=
  (closeLabels text).flatMap (fun L => (closeValues text).map (fun pv => (L, pv)))

/-- One step of the best-match loop body. -/
def closeStep (st : ℕ × Option ℚ) (p : ℕ × ℕ × ℚ) : ℕ × Option ℚ :=
  if 50 ≤ p.2.2 ∧ p.2.2 ≤ 100 then
    if natDist p.1 p.2.1 < st.1 ∧ natDist p.1 p.2.1 < 300 then
      (natDist p.1 p.2.1, some p.2.2)
    else st
  else st

def closeness_search (text : Str) : Option ℚ :=
  ((closePairs text).foldl closeStep (999999, none)).2

/-! ### Consensus Reducer (src/main.py lines 141-161) -/

/-- `sorted(l)` on values. -/
def sortq (l : List ℚ) : List ℚ := l.insertionSort (· ≤ ·)

/-- `sorted(l)[len(l)//2]` — the element the source calls the median
(for even lengths this is the *upper* median). -/
def medianQ (l : List ℚ) : ℚ := (sortq l).getD (l.length / 2) 0

/-- The candidate list `candidates_new_logic` built from the table values and
the closeness value (`if closeness_value:` is Python truthiness, hence the
`≠ 0` guard). -/
def consensusCands (tvals : List ℚ) (cval : Option ℚ) : List ℚ :=
  tvals ++ (match cval with
    | some v => if v = 0 then [] else [v]
    | none => [])

/-- Lines 150-154: median, outlier rejection with absolute tolerance 5,
median of the retained list. -/
def consensusValue (l : List ℚ) : Option ℚ :=
  match l with
  | [] => none
  | _ :: _ =>
    let median_val := medianQ l
    match l.filter (fun v => qdistLe v median_val 5) with
    | [] => none
    | c :: cs => some (medianQ (c :: cs))

/-! ### Pattern-Match Scanner processing (src/main.py lines 200-246) -/

/-- A member of the `candidates` list `(score, perc_num, sentence.strip())`. -/
structure Cand where
  score : ℕ
  value : ℚ
  sentence : Str
deriving DecidableEq, Repr

/-- `re.split(r'[.?!]', context)`. -/
def splitSent : Str → List Str
  | [] => [[]]
  | c :: rest =>
    if c = '.' ∨ c = '?' ∨ c = '!' then [] :: splitSent rest
    else
      match splitSent rest with
      | [] => [[c]]
      | s :: ss => (c :: s) :: ss

def sentenceKeywords : List Str := ["occupancy", "leased", "portfolio"].map String.toList

/-- The qualification test of the sentence-selection loop
(`len(s) > 50 and any(kw in s.lower() ...)`). -/
def sentQualifies (s : Str) : Bool :=
  decide (s.length > 50) &&
    sentenceKeywords.any (fun kw => containsSub (lowerStr s) kw)

/-- The `for s in sentences[:3]: ... break` loop, with its default. -/
def pickSent : List Str → Str → Str
  | [], dflt => dflt
  | s :: rest, dflt => if sentQualifies s then s ++ ['.'] else pickSent rest dflt

/-- Lines 211-219: context window of ±1000 characters, sentence split, and
selection of the context sentence. -/
def selectSentence (text : Str) (ms me : ℕ) : Str :=
  let context := (text.take (min (me + 1000) text.length)).drop (ms - 1000)
  let sentences := splitSent context
  pickSent (sentences.take 3) (sentences.headD [] ++ ['.'])

def badTerms : List Str :=
  ["definition", "means", "defined as", "earlier of", "achieving",
   "stabilization", "threshold", "minimum", "target", "expense", "rent",
   "cash basis"].map String.toList

def containsBad (sentLower : Str) : Bool :=
  badTerms.any (fun b => containsSub sentLower b)

/-- Lines 228-234: fixed contextual signal weights. -/
def scoreOf (sl : Str) : ℕ :=
  (if containsSub sl "same store".toList then 10 else 0) +
  (if containsSub sl "portfolio".toList then 5 else 0) +
  (if containsSub sl "as of".toList || containsSub sl "ended".toList then 8 else 0) +
  (if containsSub sl "leased".toList || containsSub sl "occupancy".toList then 5 else 0) +
  (if containsSub sl "decreased".toList || containsSub sl "increased".toList then 3 else 0) +
  (if containsSub sl "percent leased".toList then 7 else 0)

/-- Lines 203-235, the per-match body of the candidate loop: range filter,
sentence selection, disqualifying-term filter, scoring. -/
def processMatch (text : Str) (ms me : ℕ) (cap : Str) : Option Cand :=
  if 50 ≤ parseNum cap ∧ parseNum cap ≤ 100 then
    if containsBad (lowerStr (selectSentence text ms me)) then none
    else some ⟨scoreOf (lowerStr (selectSentence text ms me)), parseNum cap,
      pyStrip (selectSentence text ms me)⟩
  else none

def patternCandidates (text : Str) : List Cand :=
  (patternRawMatches text).filterMap (fun m => processMatch text m.1 m.2.1 m.2.2)

/-- Python tuple comparison `key(x) > key(best)` for `(score, value)`. -/
def keyGt (x cur : Cand) : Bool :=
  decide (cur.score < x.score) ||
    (decide (cur.score = x.score) && decide (cur.value < x.value))

/-- `max(candidates, key=lambda x: (x[0], x[1]))` — first maximal element. -/
def pickBest : List Cand → Option Cand
  | [] => none
  | c :: cs => some (cs.foldl (fun b x => if keyGt x b then x else b) c)

/-! ### A document and its per-strategy results -/

/-- The parsed artefacts of one fetched filing document. -/
structure Document where
  facts : List XbrlFact
  tables : List (List (List Str))
  pageText : Str
  text : Str
deriving DecidableEq, Repr

/-- `soup.get_text(" ", strip=True)` + whitespace collapse feeds the
closeness search; `extract_tables` reads the tables. -/
def consensusR (ticker form url : Str) (d : Document) : Option SuccessRec :=
  (consensusValue (consensusCands (extract_tables d.tables)
      (closeness_search d.pageText))).map (fun v =>
    ⟨ticker, round2 v, "ADVANCED (".toList ++ form ++ ")".toList,
      "High-confidence consensus value".toList, url⟩)

/-- `f"{x:.1f}"` for the nonnegative rationals of the TABLE branch. -/
def fmt1 (q : ℚ) : Str :=
  let n := (rhe (qmulNat q 10)).toNat
  (Nat.toDigits 10 (n / 10)) ++ '.' :: (Nat.toDigits 10 (n % 10))

/-- The capture strings of all `table_pattern` matches, in order
(`re.findall`, src/main.py line 173). -/
def tableCaptures (text : Str) : List Str :=
  (findIter tableMatcher (lowerStr text)).map (fun m => m.2.2)

/-- Lines 172-184: the first `table_pattern` match whose value is in
`[90,100]` returns immediately, rounded to one decimal. -/
def tablePhraseR (ticker form url : Str) (text : Str) : Option SuccessRec :=
  (tableCaptures text).findSome? (fun cap =>
    let perc_num := parseNum cap
    if 90 ≤ perc_num ∧ perc_num ≤ 100 then
      some ⟨ticker, round1 perc_num, "TABLE (".toList ++ form ++ ")".toList,
        "Percent leased: ".toList ++ fmt1 perc_num ++
          "% (from portfolio summary)".toList, url⟩
    else none)

/-- Lines 237-246: best-scored pattern candidate, if any. -/
def patternR (ticker form url : Str) (text : Str) : Option SuccessRec :=
  (pickBest (patternCandidates text)).map (fun best =>
    ⟨ticker, round2 best.value, "TEXT (".toList ++ form ++ ")".toList,
      best.sentence, url⟩)

/-- Lines 72-246: the evaluation of one fetched document — the four
early-return stages in source order. -/
def evalDocument (ticker form url : Str) (d : Document) : Option SuccessRec :=
  match structuredR ticker form url d.facts with
  | some r => some r
  | none =>
    match consensusR ticker form url d with
    | some r => some r
    | none =>
      match tablePhraseR ticker form url d.text with
      | some r => some r
      | none => patternR ticker form url d.text

/-! ### Document Iterator / Fallback Controller (src/main.py lines 31-70, 248) -/

/-- One entry of `filing_urls`, together with the outcome of fetching it:
`none` models the `except: continue` of lines 67-70. -/
structure Filing where
  form : Str
  url : Str
  fetched : Option Document
deriving DecidableEq, Repr

/-- Outcome of the ticker-resolution block (lines 37-43). -/
inductive Lookup where
  | blocked
  | notFound
  | found
deriving DecidableEq, Repr

/-- The input of one extraction request: the raw ticker and the collaborator
outcomes (identifier resolution, filing-index fetch, per-document fetches). -/
structure Request where
  ticker : Str
  lookup : Lookup
  catalogOk : Bool
  filings : List Filing
deriving DecidableEq, Repr

def msgBlocked : Str := "SEC blocked request — use real email in User-Agent".toList
def msgNotFound : Str := "Ticker not found".toList
def msgCatalog : Str := "Failed to fetch filings".toList
def msgNoFilings : Str := "No recent filings found".toList
def msgNoReliable : Str := "No reliable rate found across recent filings".toList

/-- The `for form_type, url in filing_urls:` loop. -/
def extractLoop (ticker : Str) : List Filing → ExtractionResult
  | [] => .failure msgNoReliable ticker
  | f :: rest =>
    match f.fetched with
    | none => extractLoop ticker rest
    | some d =>
      match evalDocument ticker f.form f.url d with
      | some r => .success r
      | none => extractLoop ticker rest

/-- `get_occupancy_rate(ticker)` (src/main.py lines 31-248), with the
network collaborators' outcomes supplied in the `Request`. -/
def get_occupancy_rate (req : Request) : ExtractionResult :=
  let t := pyStrip (upperStr req.ticker)
  match req.lookup with
  | .blocked => .failure msgBlocked t
  | .notFound => .failure msgNotFound t
  | .found =>
    if req.catalogOk then
      match req.filings with
      | [] => .failure msgNoFilings t
      | f :: rest => extractLoop t (f :: rest)
    else .failure msgCatalog t

/-! ### Claim-side definitions

These definitions follow the wording of the specification (not the source);
they are compared against the source-side definitions above. -/

/-- Short-circuiting first-success over an ordered strategy list. -/
def firstSome (l : List (Option SuccessRec)) : Option SuccessRec :=
  l.findSome? id

/-- The spec's three-strategy evaluation order
(Structured → Consensus(Table+Proximity) → Pattern), as claimed. -/
def evalDocumentClaim (ticker form url : Str) (d : Document) : Option SuccessRec :=
  firstSome [structuredR ticker form url d.facts, consensusR ticker form url d,
    patternR ticker form url d.text]

/-- The spec's four-strategy order, additionally containing the table-phrase
stage the source runs between the consensus and pattern stages. -/
def evalDocumentFour (ticker form url : Str) (d : Document) : Option SuccessRec :=
  firstSome [structuredR ticker form url d.facts, consensusR ticker form url d,
    tablePhraseR ticker form url d.text, patternR ticker form url d.text]

/-- Claim-side tabular scanner: *every* number immediately followed by a
percent sign (no intervening whitespace), in every cell of a keyword row,
kept when in `[50,100]`. -/
def extract_tables_claim (tables : List (List (List Str))) : List ℚ :=
  tables.flatMap (fun rows => rows.flatMap (fun cells =>
    if tableKeywords.any (fun kw => containsSub (lowerStr (joinSpace cells)) kw) then
      cells.flatMap (fun c =>
        ((findIter (mseqs [mnum true, sLit "%"]) c).map (fun m => parseNum m.2.2)).filter
          (fun v => decide (50 ≤ v) && decide (v ≤ 100)))
    else []))

/-- Claim-side sentence selection: first qualifying sentence anywhere in the
window (not only among the first three), else the first sentence. -/
def selectSentenceClaim (text : Str) (ms me : ℕ) : Str :=
  let context := (text.take (min (me + 1000) text.length)).drop (ms - 1000)
  let sentences := splitSent context
  match sentences.find? sentQualifies with
  | some s => s ++ ['.']
  | none => sentences.headD [] ++ ['.']

/-- A qualifying proximity pairing: value in range and distance below 300. -/
def qualPair (p : ℕ × ℕ × ℚ) : Prop :=
  50 ≤ p.2.2 ∧ p.2.2 ≤ 100 ∧ natDist p.1 p.2.1 < 300

instance (p : ℕ × ℕ × ℚ) : Decidable (qualPair p) := by
  unfold qualPair; infer_instance

/-- The first table-phrase capture whose value is in `[90,100]`. -/
def tablePhraseValue (text : Str) : Option ℚ :=
  (tableCaptures text).findSome? (fun cap =>
    let v := parseNum cap
    if 90 ≤ v ∧ v ≤ 100 then some v else none)

/-- Python tuple `(score, value)` order, non-strict. -/
def candLe (a b : Cand) : Prop :=
  a.score < b.score ∨ (a.score = b.score ∧ a.value ≤ b.value)

/-! ### Helper lemmas -/

theorem candLe_refl (a : Cand) : candLe a a := Or.inr ⟨rfl, le_refl _⟩

theorem candLe_of_keyGt_false {x b : Cand} (h : keyGt x b = false) : candLe x b := by
  unfold keyGt at h
  simp only [Bool.or_eq_false_iff, Bool.and_eq_false_iff, decide_eq_false_iff_not,
    not_lt] at h
  obtain ⟨h1, h2⟩ := h
  rcases lt_or_eq_of_le h1 with hlt | heq
  · exact Or.inl hlt
  · refine Or.inr ⟨heq, ?_⟩
    rcases h2 with h2 | h2
    · exact absurd heq.symm h2
    · exact h2

theorem candLe_of_le_of_keyGt {y b x : Cand} (h1 : candLe y b)
    (h2 : keyGt x b = true) : candLe y x := by
  unfold keyGt at h2
  simp only [Bool.or_eq_true, Bool.and_eq_true, decide_eq_true_iff] at h2
  rcases h1 with h1 | ⟨h1e, h1v⟩ <;> rcases h2 with h2 | ⟨h2e, h2v⟩
  · exact Or.inl (h1.trans h2)
  · exact Or.inl (h2e ▸ h1)
  · exact Or.inl (h1e ▸ h2)
  · exact Or.inr ⟨h1e.trans h2e, h1v.trans (le_of_lt h2v)⟩

theorem candLe_trans {a b c : Cand} (h1 : candLe a b) (h2 : candLe b c) :
    candLe a c := by
  rcases h1 with h1 | ⟨h1e, h1v⟩ <;> rcases h2 with h2 | ⟨h2e, h2v⟩
  · exact Or.inl (h1.trans h2)
  · exact Or.inl (h2e ▸ h1)
  · exact Or.inl (h1e ▸ h2)
  · exact Or.inr ⟨h1e.trans h2e, h1v.trans h2v⟩

/-- The running maximum of the `max(...)` fold is one of the scanned elements. -/
theorem foldBest_mem (cs : List Cand) : ∀ c : Cand,
    cs.foldl (fun b x => if keyGt x b then x else b) c ∈ c :: cs := by
  induction cs with
  | nil => intro c; simp
  | cons y ys ih =>
    intro c
    simp only [List.foldl_cons]
    by_cases h : keyGt y c = true
    · rw [if_pos h]
      rcases List.mem_cons.1 (ih y) with h' | h'
      · simp [h']
      · simp [List.mem_cons, h']
    · rw [if_neg h]
      rcases List.mem_cons.1 (ih c) with h' | h'
      · simp [h']
      · simp [List.mem_cons, h']

/-- Every scanned element is `≤` the running maximum in `(score, value)` order. -/
theorem foldBest_le (cs : List Cand) : ∀ c x : Cand, x ∈ c :: cs →
    candLe x (cs.foldl (fun b x => if keyGt x b then x else b) c) := by
  induction cs with
  | nil =>
    intro c x hx
    simp only [List.mem_cons, List.not_mem_nil, or_false] at hx
    simpa [hx] using candLe_refl c
  | cons y ys ih =>
    intro c x hx
    simp only [List.foldl_cons]
    by_cases h : keyGt y c = true
    · rw [if_pos h]
      rcases List.mem_cons.1 hx with h1 | h1
      · rw [h1]
        exact candLe_trans (candLe_of_le_of_keyGt (candLe_refl c) h)
          (ih y y (List.mem_cons_self y ys))
      · exact ih y x h1
    · rw [if_neg h]
      have hyc : candLe y c := candLe_of_keyGt_false (by simpa using h)
      by_cases hxy : x = y
      · rw [hxy]
        exact candLe_trans hyc (ih c c (List.mem_cons_self c ys))
      · have hmem : x ∈ c :: ys := by
          rcases List.mem_cons.1 hx with h1 | h1
          · exact List.mem_cons.2 (Or.inl h1)
          · rcases List.mem_cons.1 h1 with h2 | h2
            · exact absurd h2 hxy
            · exact List.mem_cons_of_mem c h2
        exact ih c x hmem

/-- The source's `sorted(l)[len(l)//2]` is a member of `l`. -/
theorem medianQ_mem {l : List ℚ} (h : l ≠ []) : medianQ l ∈ l := by
  have hperm := List.perm_insertionSort (fun a b : ℚ => a ≤ b) l
  have hlen : (sortq l).length = l.length := hperm.length_eq
  have hpos : 0 < l.length := List.length_pos.2 h
  have hidx : l.length / 2 < (sortq l).length := by
    rw [hlen]
    exact Nat.div_lt_self hpos (by norm_num)
  have hmed : medianQ l = (sortq l)[l.length / 2] := by
    rw [medianQ, List.getD_eq_getElem?_getD, List.getElem?_eq_getElem hidx]
    rfl
  rw [hmed]
  exact hperm.mem_iff.1 (List.getElem_mem hidx)

/-- All values produced by the tabular scanner lie in `[50,100]`. -/
theorem extract_tables_bounds {tables : List (List (List Str))} {v : ℚ}
    (h : v ∈ extract_tables tables) : 50 ≤ v ∧ v ≤ 100 := by
  rw [extract_tables] at h
  simp only [List.mem_flatMap] at h
  obtain ⟨rows, _, cells, _, hv⟩ := h
  split at hv
  · simp only [List.mem_filterMap] at hv
    obtain ⟨c, _, hc⟩ := hv
    rcases hs : pctSearch c with _ | w
    · rw [hs] at hc; simp at hc
    · rw [hs] at hc
      dsimp only at hc
      by_cases hrange : 50 ≤ w ∧ w ≤ 100
      · rw [if_pos hrange] at hc
        cases hc
        exact hrange
      · rw [if_neg hrange] at hc
        cases hc
  · simp at hv

/-- The proximity loop's state only ever holds in-range values. -/
theorem closeFold_inrange (ps : List (ℕ × ℕ × ℚ)) :
    ∀ st : ℕ × Option ℚ, (∀ w, st.2 = some w → 50 ≤ w ∧ w ≤ 100) →
    ∀ w, (ps.foldl closeStep st).2 = some w → 50 ≤ w ∧ w ≤ 100 := by
  induction ps with
  | nil => intro st hst w hw; exact hst w hw
  | cons p ps ih =>
    intro st hst w hw
    rw [List.foldl_cons] at hw
    refine ih (closeStep st p) ?_ w hw
    intro u hu
    unfold closeStep at hu
    split at hu
    · split at hu
      · rename_i hrange _
        cases hu
        exact ⟨hrange.1, hrange.2⟩
      · exact hst u hu
    · exact hst u hu

/-- Values returned by the proximity scanner lie in `[50,100]`. -/
theorem closeness_bounds {text : Str} {v : ℚ}
    (h : closeness_search text = some v) : 50 ≤ v ∧ v ≤ 100 := by
  rw [closeness_search] at h
  exact closeFold_inrange (closePairs text) (999999, none) (by intro w hw; cases hw) v h

/-- Every consensus candidate value lies in `[50,100]`. -/
theorem consensusCands_bounds {tables : List (List (List Str))} {pageText : Str}
    {v : ℚ}
    (h : v ∈ consensusCands (extract_tables tables) (closeness_search pageText)) :
    50 ≤ v ∧ v ≤ 100 := by
  unfold consensusCands at h
  rcases List.mem_append.1 h with h | h
  · exact extract_tables_bounds h
  · rcases hc : closeness_search pageText with _ | w
    · rw [hc] at h; simp at h
    · rw [hc] at h
      dsimp only at h
      by_cases h0 : w = 0
      · rw [if_pos h0] at h
        simp at h
      · rw [if_neg h0] at h
        simp only [List.mem_singleton] at h
        rw [h]
        exact closeness_bounds hc

/-- The consensus reducer returns a member of its input list that is within
tolerance 5 of the source's median. -/
theorem consensusValue_mem {l : List ℚ} {m : ℚ} (h : consensusValue l = some m) :
    m ∈ l ∧ |m - medianQ l| ≤ 5 := by
  unfold consensusValue at h
  rcases l with _ | ⟨x, xs⟩
  · cases h
  · simp only at h
    rcases hf : (x :: xs).filter (fun v => qdistLe v (medianQ (x :: xs)) 5) with _ | ⟨c, cs⟩
    · rw [hf] at h; cases h
    · rw [hf] at h
      cases h
      have hsub : medianQ (c :: cs) ∈
          (x :: xs).filter (fun v => qdistLe v (medianQ (x :: xs)) 5) := by
        rw [hf]
        exact medianQ_mem (by simp)
      obtain ⟨h1, h2⟩ := List.mem_filter.1 hsub
      exact ⟨h1, (qdistLe_iff _ _ _).1 h2⟩

/-- `str.strip()` returns an infix of its argument. -/
theorem pyStrip_infix_self (s : Str) : pyStrip s <:+: s := by
  unfold pyStrip
  have h1 : s.dropWhile isSpaceChar <:+ s := List.dropWhile_suffix _
  have h2 : (s.dropWhile isSpaceChar).reverse.dropWhile isSpaceChar <:+
      (s.dropWhile isSpaceChar).reverse := List.dropWhile_suffix _
  have h3 : ((s.dropWhile isSpaceChar).reverse.dropWhile isSpaceChar).reverse <+:
      s.dropWhile isSpaceChar := by
    have := List.reverse_prefix.2 h2
    simpa using this
  exact h3.isInfix.trans h1.isInfix

/-- Lower-casing preserves infix containment. -/
theorem lowerStr_infix_mono {a b : Str} (h : a <:+: b) : lowerStr a <:+: lowerStr b := by
  obtain ⟨s, t, rfl⟩ := h
  exact ⟨lowerStr s, lowerStr t, by simp [lowerStr]⟩

set_option maxRecDepth 4000 in
/-- Every pattern candidate's value lies in `[50,100]` and its sentence is
free of disqualifying terms. -/
theorem patternCandidates_sound {text : Str} {c : Cand}
    (h : c ∈ patternCandidates text) :
    (50 ≤ c.value ∧ c.value ≤ 100) ∧ containsBad (lowerStr c.sentence) = false := by
  rw [patternCandidates] at h
  simp only [List.mem_filterMap] at h
  obtain ⟨m, _, hm⟩ := h
  rw [processMatch] at hm
  by_cases hrange : 50 ≤ parseNum m.2.2 ∧ parseNum m.2.2 ≤ 100
  · rw [if_pos hrange] at hm
    by_cases hbad : containsBad (lowerStr (selectSentence text m.1 m.2.1)) = true
    · rw [if_pos hbad] at hm
      cases hm
    · rw [if_neg hbad] at hm
      rw [Option.some_inj] at hm
      subst hm
      refine ⟨hrange, ?_⟩
      -- the stored sentence is the stripped sentence; stripping preserves
      -- absence of any infix
      simp only [Bool.not_eq_true] at hbad
      rcases hb : containsBad (lowerStr (pyStrip (selectSentence text m.1 m.2.1))) with _ | _
      · rfl
      · exfalso
        rw [containsBad] at hb hbad
        rw [List.any_eq_true] at hb
        obtain ⟨b, hbmem, hbin⟩ := hb
        rw [List.any_eq_false] at hbad
        refine hbad b hbmem ?_
        rw [containsSub_iff] at hbin ⊢
        exact hbin.trans (lowerStr_infix_mono (pyStrip_infix_self _))
  · rw [if_neg hrange] at hm
    cases hm

/-- The C1 value invariant: in `[50,100]` and a whole number of hundredths. -/
def valueOK (v : ℚ) : Prop :=
  50 ≤ v ∧ v ≤ 100 ∧ ∃ k : ℤ, v = (k : ℚ) / 100

theorem valueOK_round2 {v : ℚ} (h1 : 50 ≤ v) (h2 : v ≤ 100) :
    valueOK (round2 v) := by
  have h := round2_bounds (A := 50) (B := 100) (by exact_mod_cast h1)
    (by exact_mod_cast h2)
  exact ⟨by exact_mod_cast h.1, by exact_mod_cast h.2, round2_hundredths v⟩

theorem valueOK_round1_90 {v : ℚ} (h1 : 90 ≤ v) (h2 : v ≤ 100) :
    valueOK (round1 v) := by
  have h := round1_bounds (A := 90) (B := 100) (by exact_mod_cast h1)
    (by exact_mod_cast h2)
  have h90 : (90 : ℚ) ≤ round1 v := by exact_mod_cast h.1
  exact ⟨by linarith, by exact_mod_cast h.2, round1_hundredths v⟩

theorem factCandidate_bounds {f : XbrlFact} {vc : ℚ × Str}
    (h : factCandidate f = some vc) : 50 ≤ vc.1 ∧ vc.1 ≤ 100 := by
  simp only [factCandidate] at h
  split_ifs at h with h1 h2 h3 h4
  all_goals first
  | (rw [Option.some_inj] at h
     rw [← h]
     exact h4)
  | cases h

theorem structuredR_sound {t f u : Str} {facts : List XbrlFact} {r : SuccessRec}
    (h : structuredR t f u facts = some r) : valueOK r.occupancy_rate := by
  rw [structuredR] at h
  obtain ⟨a, _, ha⟩ := List.exists_of_findSome?_eq_some h
  rcases hc : factCandidate a with _ | vc
  · rw [hc] at ha; cases ha
  · rw [hc] at ha
    rw [Option.map_some'] at ha
    rw [Option.some_inj] at ha
    have hb := factCandidate_bounds hc
    rw [← ha]
    exact valueOK_round2 hb.1 hb.2

theorem consensusR_sound {t f u : Str} {d : Document} {r : SuccessRec}
    (h : consensusR t f u d = some r) : valueOK r.occupancy_rate := by
  rw [consensusR] at h
  rcases hv : consensusValue (consensusCands (extract_tables d.tables)
      (closeness_search d.pageText)) with _ | v
  · rw [hv] at h; cases h
  · rw [hv] at h
    rw [Option.map_some'] at h
    rw [Option.some_inj] at h
    have hmem := (consensusValue_mem hv).1
    have hb := consensusCands_bounds hmem
    rw [← h]
    exact valueOK_round2 hb.1 hb.2

theorem tablePhraseR_sound {t f u : Str} {text : Str} {r : SuccessRec}
    (h : tablePhraseR t f u text = some r) : valueOK r.occupancy_rate := by
  rw [tablePhraseR] at h
  obtain ⟨cap, _, hcap⟩ := List.exists_of_findSome?_eq_some h
  dsimp only at hcap
  by_cases hrange : 90 ≤ parseNum cap ∧ parseNum cap ≤ 100
  · rw [if_pos hrange] at hcap
    rw [Option.some_inj] at hcap
    rw [← hcap]
    exact valueOK_round1_90 hrange.1 hrange.2
  · rw [if_neg hrange] at hcap
    cases hcap

theorem pickBest_mem {l : List Cand} {b : Cand} (h : pickBest l = some b) :
    b ∈ l := by
  rcases l with _ | ⟨c, cs⟩
  · cases h
  · rw [pickBest, Option.some_inj] at h
    rw [← h]
    exact foldBest_mem cs c

theorem pickBest_max {l : List Cand} {b : Cand} (h : pickBest l = some b) :
    ∀ x ∈ l, candLe x b := by
  rcases l with _ | ⟨c, cs⟩
  · cases h
  · rw [pickBest, Option.some_inj] at h
    rw [← h]
    exact foldBest_le cs c

theorem patternR_sound {t f u : Str} {text : Str} {r : SuccessRec}
    (h : patternR t f u text = some r) : valueOK r.occupancy_rate := by
  rw [patternR] at h
  rcases hp : pickBest (patternCandidates text) with _ | best
  · rw [hp] at h; cases h
  · rw [hp] at h
    rw [Option.map_some'] at h
    rw [Option.some_inj] at h
    have hb := (patternCandidates_sound (pickBest_mem hp)).1
    rw [← h]
    exact valueOK_round2 hb.1 hb.2

theorem evalDocument_sound {t f u : Str} {d : Document} {r : SuccessRec}
    (h : evalDocument t f u d = some r) : valueOK r.occupancy_rate := by
  rw [evalDocument] at h
  rcases h1 : structuredR t f u d.facts with _ | r1
  · rw [h1] at h
    rcases h2 : consensusR t f u d with _ | r2
    · rw [h2] at h
      rcases h3 : tablePhraseR t f u d.text with _ | r3
      · rw [h3] at h
        exact patternR_sound h
      · rw [h3] at h
        rw [Option.some_inj] at h
        rw [← h]
        exact tablePhraseR_sound h3
    · rw [h2] at h
      rw [Option.some_inj] at h
      rw [← h]
      exact consensusR_sound h2
  · rw [h1] at h
    rw [Option.some_inj] at h
    rw [← h]
    exact structuredR_sound h1

theorem extractLoop_sound {t : Str} {fs : List Filing} {r : SuccessRec}
    (h : extractLoop t fs = .success r) : valueOK r.occupancy_rate := by
  induction fs with
  | nil => cases h
  | cons f rest ih =>
    rw [extractLoop] at h
    rcases hf : f.fetched with _ | d
    · rw [hf] at h
      exact ih h
    · rw [hf] at h
      dsimp only at h
      rcases he : evalDocument t f.form f.url d with _ | r1
      · rw [he] at h
        exact ih h
      · rw [he] at h
        cases h
        exact evalDocument_sound he

/-! ### Concrete inputs for witnesses and counterexamples -/

def tkW : Str := "STAG".toList
def fmW : Str := "10-K".toList
def urW : Str := "u".toList

/-- A document whose text contains "percent leased" separated from "95%" by
300 filler characters: the proximity scanner rejects the pairing (distance
not below 300), no pattern-library regex matches, but the table-phrase regex
does. -/
def T2 : Str := "percent leased ".toList ++ List.replicate 300 'a' ++ " 95%".toList

def D2 : Document := ⟨[], [], T2, T2⟩

/-- A request with a single filing whose document carries one qualifying
XBRL fact with the value 95.5. -/
def reqW : Request := ⟨"stag".toList, .found, true,
  [⟨fmW, urW, some ⟨[⟨"AsOf2024Q4".toList, "Occupancy rate".toList, [],
      "95.5".toList⟩], [], [], []⟩⟩]⟩

/-! ### C1 -/

/-- C1: for every extraction request, whenever `get_occupancy_rate` returns
a success record, its `occupancy_rate` lies in `[50,100]` and is rounded to
a fixed decimal precision (a whole number of hundredths — the strategies
round to two decimals, the table-phrase branch to one); any candidate value
outside `[50,100]` is discarded before reaching the result, regardless of
which strategy produced it. -/
theorem C1_value_invariant (req : Request) (r : SuccessRec)
    (h : get_occupancy_rate req = .success r) :
    50 ≤ r.occupancy_rate ∧ r.occupancy_rate ≤ 100 ∧
      ∃ k : ℤ, r.occupancy_rate = (k : ℚ) / 100 := by
  rw [get_occupancy_rate] at h
  rcases hl : req.lookup with _ | _ | _ <;> rw [hl] at h <;> dsimp only at h
  · cases h
  · cases h
  · by_cases hc : req.catalogOk = true
    · rw [if_pos hc] at h
      rcases hf : req.filings with _ | ⟨f, rest⟩ <;> rw [hf] at h <;> dsimp only at h
      · cases h
      · exact extractLoop_sound h
    · rw [if_neg hc] at h
      cases h

/-- C1 witness: the invariant at a concrete successful request. -/
theorem C1_value_invariant_witness :
    50 ≤ (mkRat 191 2) ∧ (mkRat 191 2) ≤ 100 ∧
      ∃ k : ℤ, (mkRat 191 2) = (k : ℚ) / 100 :=
  C1_value_invariant reqW
    ⟨"STAG".toList, mkRat 191 2, "XBRL (10-K)".toList, "Occupancy rate".toList,
      urW⟩ (by decide)

/-! ### C2 -/

set_option maxRecDepth 40000 in
/-- C2 counterexample: on the document `D2` the source returns the
table-phrase stage's result while the claimed three-strategy order
(Structured → Consensus → Pattern) yields nothing: the per-document
evaluation is not the claimed three-stage first-success chain. -/
theorem C2_strategy_order_counterexample :
    evalDocument tkW fmW urW D2 ≠ evalDocumentClaim tkW fmW urW D2 := by
  decide

/-- C2 (amended): within one document, strategies are attempted in the
strict order Structured → Consensus(Table+Proximity) → Table-phrase →
Pattern; the first stage to yield a candidate ends the document's evaluation
(in particular a qualifying structured fact always wins over a pattern hit). -/
theorem C2_strategy_order_amended (t f u : Str) (d : Document) :
    evalDocument t f u d = evalDocumentFour t f u d := by
  rw [evalDocument, evalDocumentFour, firstSome]
  rcases h1 : structuredR t f u d.facts with _ | r1 <;>
    rcases h2 : consensusR t f u d with _ | r2 <;>
      rcases h3 : tablePhraseR t f u d.text with _ | r3 <;>
        rcases h4 : patternR t f u d.text with _ | r4 <;>
          simp [List.findSome?_cons, h1, h2, h3, h4]

/-! ### C3 -/

/-- C3 counterexample: on the candidate list `[95, 96, 40]` the consensus
reducer returns 96, not the claimed retained-set median 95.5: the source's
"median" of a two-element list is its upper element (`sorted[n//2]`). -/
theorem C3_consensus_counterexample :
    consensusValue [95, 96, 40] = some 96 ∧
      consensusValue [95, 96, 40] ≠ some (mkRat 191 2) := by
  decide

/-- C3 (amended): given a non-empty candidate list the reducer computes the
element at index `n/2` of the sorted list (the upper median), keeps the
values within absolute tolerance 5 of it, and returns the upper median of
the retained list — always a member of the input within 5 of the computed
median; on `{95, 96, 40}` (median 95, rejecting 40) this retained "median"
of `[95, 96]` is 96. -/
theorem C3_consensus_amended :
    consensusValue [95, 96, 40] = some 96 ∧
      ∀ l : List ℚ, l ≠ [] →
        ∃ m, consensusValue l = some m ∧ m ∈ l ∧ |m - medianQ l| ≤ 5 := by
  constructor
  · decide
  · intro l hl
    rcases hv : consensusValue l with _ | m
    · exfalso
      rcases l with _ | ⟨x, xs⟩
      · exact hl rfl
      · unfold consensusValue at hv
        dsimp only at hv
        rcases hf : (x :: xs).filter (fun v => qdistLe v (medianQ (x :: xs)) 5)
          with _ | ⟨c, cs⟩
        · have hm : medianQ (x :: xs) ∈
              (x :: xs).filter (fun v => qdistLe v (medianQ (x :: xs)) 5) := by
            rw [List.mem_filter]
            refine ⟨medianQ_mem (by simp), ?_⟩
            rw [qdistLe_iff]
            simp
          rw [hf] at hm
          simp at hm
        · rw [hf] at hv
          dsimp only at hv
          cases hv
    · obtain ⟨hmem, htol⟩ := consensusValue_mem hv
      exact ⟨m, rfl, hmem, htol⟩

/-- C3 amended-claim witness at the concrete list `[95, 96, 40]`. -/
theorem C3_consensus_amended_witness :
    ∃ m, consensusValue [95, 96, 40] = some m ∧ m ∈ [(95 : ℚ), 96, 40] ∧
      |m - medianQ [95, 96, 40]| ≤ 5 :=
  C3_consensus_amended.2 [95, 96, 40] (by decide)

/-! ### C4 -/

/-- C4: in the Pattern-Match Scanner, every candidate whose selected context
sentence contains a disqualifying term is discarded; in particular a match
whose selected sentence contains "stabilization threshold of 90%" is never
returned as a Pattern-Match candidate even though 90 is in range. -/
theorem C4_disqualifier_filter :
    (∀ text ms me cap, containsBad (lowerStr (selectSentence text ms me)) = true →
      processMatch text ms me cap = none)
    ∧ (∀ text ms me cap,
      containsSub (lowerStr (selectSentence text ms me))
          "stabilization threshold of 90%".toList = true →
      processMatch text ms me cap = none) := by
  have hgen : ∀ text ms me cap,
      containsBad (lowerStr (selectSentence text ms me)) = true →
      processMatch text ms me cap = none := by
    intro text ms me cap hbad
    rw [processMatch]
    by_cases hrange : 50 ≤ parseNum cap ∧ parseNum cap ≤ 100
    · rw [if_pos hrange, if_pos hbad]
    · rw [if_neg hrange]
  refine ⟨hgen, ?_⟩
  intro text ms me cap hphrase
  refine hgen text ms me cap ?_
  rw [containsBad, List.any_eq_true]
  refine ⟨"stabilization".toList, by decide, ?_⟩
  rw [containsSub_iff] at hphrase ⊢
  exact List.IsInfix.trans (by decide) hphrase

/-- A text whose only sentence contains the phrase
"stabilization threshold of 90%". -/
def W4 : Str :=
  ("the stabilization threshold of 90% applies to all assets under " ++
    "development in the pool").toList

/-- C4 witness: the concrete match on `W4` is discarded. -/
theorem C4_disqualifier_filter_witness :
    processMatch W4 0 34 "90".toList = none :=
  C4_disqualifier_filter.2 W4 0 34 "90".toList (by decide)

/-! ### C5 -/

/-- When every filing in the list is fetch-failed, the loop exhausts it. -/
theorem extractLoop_all_none {t : Str} {fs : List Filing}
    (h : ∀ f ∈ fs, f.fetched = none) :
    extractLoop t fs = .failure msgNoReliable t := by
  induction fs with
  | nil => rfl
  | cons f rest ih =>
    rw [extractLoop, h f (List.mem_cons_self f rest)]
    exact ih (fun g hg => h g (List.mem_cons_of_mem f hg))

/-- C5: a fetch-failed document is treated identically to a document
yielding no candidate (skip to the next); when the ticker resolves and
every filing is fetch-failed, the result is never a success but the
no-qualifying-candidate failure, whose message differs from the
identifier-not-found failure. -/
theorem C5_fetch_failure_handling :
    (∀ (t : Str) (f : Filing) rest, f.fetched = none →
      extractLoop t (f :: rest) = extractLoop t rest)
    ∧ (∀ (t : Str) (f : Filing) d rest, f.fetched = some d →
      evalDocument t f.form f.url d = none →
      extractLoop t (f :: rest) = extractLoop t rest)
    ∧ (∀ req : Request, req.lookup = .found → req.catalogOk = true →
      req.filings ≠ [] → (∀ f ∈ req.filings, f.fetched = none) →
      get_occupancy_rate req =
        .failure msgNoReliable (pyStrip (upperStr req.ticker)))
    ∧ (∀ req : Request, req.lookup = .notFound →
      get_occupancy_rate req =
        .failure msgNotFound (pyStrip (upperStr req.ticker)))
    ∧ msgNoReliable ≠ msgNotFound := by
  refine ⟨?_, ?_, ?_, ?_, by decide⟩
  · intro t f rest hf
    rw [extractLoop, hf]
  · intro t f d rest hf he
    rw [extractLoop, hf]
    dsimp only
    rw [he]
  · intro req hl hc hne hall
    rw [get_occupancy_rate, hl]
    dsimp only
    rw [if_pos hc]
    rcases hf : req.filings with _ | ⟨f, rest⟩
    · exact absurd hf hne
    · dsimp only
      rw [← hf]
      exact extractLoop_all_none hall
  · intro req hl
    rw [get_occupancy_rate, hl]

/-- A request whose single filing is fetch-failed. -/
def req5 : Request := ⟨"stag".toList, .found, true, [⟨fmW, urW, none⟩]⟩

/-- C5 witness: the all-fetch-failed request yields the
no-reliable-rate failure. -/
theorem C5_fetch_failure_handling_witness :
    get_occupancy_rate req5 =
      .failure msgNoReliable (pyStrip (upperStr req5.ticker)) :=
  C5_fetch_failure_handling.2.2.1 req5 rfl rfl (by decide) (by decide)

/-! ### C6 -/

/-- C6 counterexample table: a keyword row whose second cell's first
percentage-shaped match is `40 %` (whitespace before the sign, value out of
range), followed by an in-range `95%` the source never reaches. -/
def tbl6 : List (List (List Str)) :=
  [[["occupancy".toList, "40 % and 95%".toList]]]

/-- C6 counterexample: the source's tabular scanner returns nothing on
`tbl6`, while the claimed scan (every number immediately followed by a
percent sign, filtered to `[50,100]`) would return `[95]`. -/
theorem C6_tabular_counterexample :
    extract_tables tbl6 = [] ∧ extract_tables_claim tbl6 = [95] := by
  decide

/-- C6 (amended): a value is produced by the tabular scanner iff some table
row whose space-joined lower-cased text contains a keyword has a cell whose
*first* match of "number, optional whitespace, percent sign" it is, and it
lies in `[50,100]` (a cell whose first match is out of range contributes
nothing, and later matches in the cell are never examined). -/
theorem C6_tabular_amended (tables : List (List (List Str))) (v : ℚ) :
    v ∈ extract_tables tables ↔
      ∃ rows ∈ tables, ∃ cells ∈ rows,
        (tableKeywords.any
          (fun kw => containsSub (lowerStr (joinSpace cells)) kw)) = true ∧
        ∃ c ∈ cells, pctSearch c = some v ∧ 50 ≤ v ∧ v ≤ 100 := by
  rw [extract_tables]
  simp only [List.mem_flatMap]
  constructor
  · rintro ⟨rows, hr, cells, hc, hv⟩
    by_cases hk : (tableKeywords.any
        (fun kw => containsSub (lowerStr (joinSpace cells)) kw)) = true
    · rw [if_pos hk] at hv
      simp only [List.mem_filterMap] at hv
      obtain ⟨c, hcc, hcv⟩ := hv
      rcases hs : pctSearch c with _ | w
      · rw [hs] at hcv; cases hcv
      · rw [hs] at hcv
        dsimp only at hcv
        by_cases hrange : 50 ≤ w ∧ w ≤ 100
        · rw [if_pos hrange] at hcv
          cases hcv
          exact ⟨rows, hr, cells, hc, hk, c, hcc, hs, hrange⟩
        · rw [if_neg hrange] at hcv
          cases hcv
    · rw [if_neg hk] at hv
      simp at hv
  · rintro ⟨rows, hr, cells, hc, hk, c, hcc, hs, h1, h2⟩
    refine ⟨rows, hr, cells, hc, ?_⟩
    rw [if_pos hk]
    simp only [List.mem_filterMap]
    refine ⟨c, hcc, ?_⟩
    rw [hs]
    dsimp only
    rw [if_pos ⟨h1, h2⟩]

/-! ### C7 -/

theorem closeStep_of_not (st : ℕ × Option ℚ) {p : ℕ × ℕ × ℚ}
    (h : ¬(50 ≤ p.2.2 ∧ p.2.2 ≤ 100 ∧ natDist p.1 p.2.1 < st.1 ∧
      natDist p.1 p.2.1 < 300)) : closeStep st p = st := by
  unfold closeStep
  by_cases h1 : 50 ≤ p.2.2 ∧ p.2.2 ≤ 100
  · rw [if_pos h1]
    by_cases h2 : natDist p.1 p.2.1 < st.1 ∧ natDist p.1 p.2.1 < 300
    · exact absurd ⟨h1.1, h1.2, h2.1, h2.2⟩ h
    · rw [if_neg h2]
  · rw [if_neg h1]

theorem closeStep_of (st : ℕ × Option ℚ) {p : ℕ × ℕ × ℚ}
    (h : 50 ≤ p.2.2 ∧ p.2.2 ≤ 100 ∧ natDist p.1 p.2.1 < st.1 ∧
      natDist p.1 p.2.1 < 300) :
    closeStep st p = (natDist p.1 p.2.1, some p.2.2) := by
  unfold closeStep
  rw [if_pos ⟨h.1, h.2.1⟩, if_pos ⟨h.2.2.1, h.2.2.2⟩]

/-- Once the proximity loop has found a qualifying pairing the state keeps
a qualifying best: distance bound, provenance and minimality. -/
theorem closeFold_some (ps : List (ℕ × ℕ × ℚ)) :
    ∀ d : ℕ, ∀ v : ℚ, d < 300 →
    (ps.foldl closeStep (d, some v)).1 ≤ d ∧
    (ps.foldl closeStep (d, some v)).1 < 300 ∧
    (ps.foldl closeStep (d, some v) = (d, some v) ∨
      ∃ p ∈ ps, qualPair p ∧
        ps.foldl closeStep (d, some v) = (natDist p.1 p.2.1, some p.2.2)) ∧
    (∀ q ∈ ps, qualPair q →
      (ps.foldl closeStep (d, some v)).1 ≤ natDist q.1 q.2.1) := by
  induction ps with
  | nil =>
    intro d v hd
    exact ⟨le_refl d, hd, Or.inl rfl, by intro q hq; cases hq⟩
  | cons p ps ih =>
    intro d v hd
    rw [List.foldl_cons]
    by_cases hcond : 50 ≤ p.2.2 ∧ p.2.2 ≤ 100 ∧ natDist p.1 p.2.1 < d ∧
        natDist p.1 p.2.1 < 300
    · rw [closeStep_of (d, some v) hcond]
      obtain ⟨ha, hb, hc, hmin⟩ := ih (natDist p.1 p.2.1) p.2.2 hcond.2.2.2
      refine ⟨ha.trans (le_of_lt hcond.2.2.1), hb, ?_, ?_⟩
      · rcases hc with hc | ⟨q, hq, hqq, hqe⟩
        · exact Or.inr ⟨p, List.mem_cons_self p ps,
            ⟨hcond.1, hcond.2.1, hcond.2.2.2⟩, hc⟩
        · exact Or.inr ⟨q, List.mem_cons_of_mem p hq, hqq, hqe⟩
      · intro q hq hqual
        rcases List.mem_cons.1 hq with rfl | hq'
        · exact ha
        · exact hmin q hq' hqual
    · rw [closeStep_of_not (d, some v) hcond]
      obtain ⟨ha, hb, hc, hmin⟩ := ih d v hd
      refine ⟨ha, hb, ?_, ?_⟩
      · rcases hc with hc | ⟨q, hq, hqq, hqe⟩
        · exact Or.inl hc
        · exact Or.inr ⟨q, List.mem_cons_of_mem p hq, hqq, hqe⟩
      · intro q hq hqual
        rcases List.mem_cons.1 hq with rfl | hq'
        · -- the head did not update: its distance is at least `d`
          have : ¬ natDist q.1 q.2.1 < d := by
            intro hlt
            exact hcond ⟨hqual.1, hqual.2.1, hlt, hqual.2.2⟩
          omega
        · exact hmin q hq' hqual

/-- If no pairing qualifies, the proximity loop never leaves its initial
state. -/
theorem closeFold_none (ps : List (ℕ × ℕ × ℚ)) (h : ∀ p ∈ ps, ¬ qualPair p) :
    ps.foldl closeStep (999999, none) = (999999, none) := by
  induction ps with
  | nil => rfl
  | cons p ps ih =>
    rw [List.foldl_cons, closeStep_of_not ((999999 : ℕ), none), ]
    · exact ih (fun q hq => h q (List.mem_cons_of_mem p hq))
    · intro hc
      exact h p (List.mem_cons_self p ps) ⟨hc.1, hc.2.1, hc.2.2.2⟩

/-- Full characterization of the proximity loop from its initial state. -/
theorem closeFold_main (ps : List (ℕ × ℕ × ℚ)) :
    ((ps.foldl closeStep (999999, none)).2 = none ∧ ∀ p ∈ ps, ¬ qualPair p)
    ∨ (∃ p ∈ ps, qualPair p ∧
        ps.foldl closeStep (999999, none) = (natDist p.1 p.2.1, some p.2.2) ∧
        ∀ q ∈ ps, qualPair q → natDist p.1 p.2.1 ≤ natDist q.1 q.2.1) := by
  induction ps with
  | nil => exact Or.inl ⟨rfl, by intro p hp; cases hp⟩
  | cons p ps ih =>
    by_cases hq : qualPair p
    · right
      rw [List.foldl_cons,
        closeStep_of ((999999 : ℕ), none) ⟨hq.1, hq.2.1, by
          have := hq.2.2
          omega, hq.2.2⟩]
      obtain ⟨ha, _, hc, hmin⟩ :=
        closeFold_some ps (natDist p.1 p.2.1) p.2.2 hq.2.2
      rcases hc with hc | ⟨q, hqm, hqq, hqe⟩
      · refine ⟨p, List.mem_cons_self p ps, hq, hc, ?_⟩
        intro r hr hrq
        rcases List.mem_cons.1 hr with rfl | hr'
        · exact le_refl _
        · have := hmin r hr' hrq
          rw [hc] at this
          exact this
      · refine ⟨q, List.mem_cons_of_mem p hqm, hqq, hqe, ?_⟩
        intro r hr hrq
        rcases List.mem_cons.1 hr with rfl | hr'
        · rw [hqe] at ha
          exact ha
        · have := hmin r hr' hrq
          rw [hqe] at this
          exact this
    · rw [List.foldl_cons, closeStep_of_not ((999999 : ℕ), none)
        (by intro hc; exact hq ⟨hc.1, hc.2.1, hc.2.2.2⟩)]
      rcases ih with ⟨h1, h2⟩ | ⟨q, hqm, hqq, hqe, hmin⟩
      · left
        refine ⟨h1, ?_⟩
        intro r hr
        rcases List.mem_cons.1 hr with rfl | hr'
        · exact hq
        · exact h2 r hr'
      · right
        refine ⟨q, List.mem_cons_of_mem p hqm, hqq, hqe, ?_⟩
        intro r hr hrq
        rcases List.mem_cons.1 hr with rfl | hr'
        · exact absurd hrq hq
        · exact hmin r hr' hrq

/-- C7: the Proximity Scanner pairs keyword occurrences with percent
occurrences, accepts a pairing only when its value is in `[50,100]` and its
character distance is strictly below 300, and returns the value of a
minimum-distance qualifying pairing as its single candidate — or no
candidate exactly when no pairing qualifies. -/
theorem C7_proximity (text : Str) :
    (closeness_search text = none ↔ ∀ p ∈ closePairs text, ¬ qualPair p)
    ∧ (∀ v, closeness_search text = some v →
        ∃ p ∈ closePairs text, qualPair p ∧ p.2.2 = v ∧
          ∀ q ∈ closePairs text, qualPair q →
            natDist p.1 p.2.1 ≤ natDist q.1 q.2.1) := by
  constructor
  · constructor
    · intro h
      rcases closeFold_main (closePairs text) with ⟨_, h2⟩ | ⟨p, _, _, hpe, _⟩
      · exact h2
      · rw [closeness_search, hpe] at h
        cases h
    · intro h
      rw [closeness_search, closeFold_none (closePairs text) h]
  · intro v hv
    rcases closeFold_main (closePairs text) with ⟨h1, _⟩ | ⟨p, hpm, hpq, hpe, hmin⟩
    · rw [closeness_search, h1] at hv
      cases hv
    · rw [closeness_search, hpe] at hv
      rw [Option.some_inj] at hv
      exact ⟨p, hpm, hpq, hv, hmin⟩

/-- The concrete text for the C7 witness. -/
def Tw7 : Str := "occupancy 95%".toList

/-- C7 witness: on `Tw7` the scanner returns 95, realized by a qualifying
minimum-distance pairing. -/
theorem C7_proximity_witness :
    ∃ p ∈ closePairs Tw7, qualPair p ∧ p.2.2 = 95 ∧
      ∀ q ∈ closePairs Tw7, qualPair q →
        natDist p.1 p.2.1 ≤ natDist q.1 q.2.1 :=
  (C7_proximity Tw7).2 95 (by decide)

/-! ### C8 -/

/-- C8: across surviving Pattern-Match candidates the one with the highest
`(score, value)` lexicographic key is selected — score primary, value
secondary; for two candidates of equal score and values 88 and 91 the
91 candidate wins, in either list order. -/
theorem C8_selection :
    (∀ (l : List Cand) (b : Cand), pickBest l = some b →
      b ∈ l ∧ ∀ x ∈ l, candLe x b)
    ∧ (∀ (s : ℕ) (t1 t2 : Str),
      (pickBest [⟨s, 88, t1⟩, ⟨s, 91, t2⟩]).map Cand.value = some 91 ∧
      (pickBest [⟨s, 91, t2⟩, ⟨s, 88, t1⟩]).map Cand.value = some 91) := by
  refine ⟨fun l b h => ⟨pickBest_mem h, pickBest_max h⟩, ?_⟩
  intro s t1 t2
  constructor
  · rw [pickBest]
    simp only [List.foldl_cons, List.foldl_nil, keyGt]
    norm_num
  · rw [pickBest]
    simp only [List.foldl_cons, List.foldl_nil, keyGt]
    norm_num

/-- C8 witness: the selection facts at a concrete two-candidate list. -/
theorem C8_selection_witness :
    (⟨5, 91, []⟩ : Cand) ∈ ([⟨5, 88, []⟩, ⟨5, 91, []⟩] : List Cand) ∧
      ∀ x ∈ ([⟨5, 88, []⟩, ⟨5, 91, []⟩] : List Cand), candLe x ⟨5, 91, []⟩ :=
  C8_selection.1 [⟨5, 88, []⟩, ⟨5, 91, []⟩] ⟨5, 91, []⟩ (by decide)

/-! ### C9 -/

/-- A document text with three short leading sentences; the fourth sentence
is the first one that is long enough and keyword-bearing. -/
def T9 : Str := ("z. z. z. the buildings in our occupancy portfolio " ++
  "along all regions were 95% leased").toList

/-- C9 counterexample: the pattern match at positions 73-83 of `T9` is a
real Pattern-Match candidate whose selected sentence is the fallback
"z." — the source examines only the first three sentences — while the
claimed selection (first qualifying sentence in the whole window) would
select the fourth sentence. -/
theorem C9_sentence_selection_counterexample :
    patternCandidates T9 = [⟨0, 95, "z.".toList⟩] ∧
    selectSentence T9 73 83 = "z.".toList ∧
    selectSentenceClaim T9 73 83 ≠ "z.".toList := by
  decide

theorem pickSent_eq (l : List Str) (d : Str) :
    pickSent l d = match l.find? sentQualifies with
      | some s => s ++ ['.']
      | none => d := by
  induction l with
  | nil => rfl
  | cons s rest ih =>
    rw [pickSent]
    by_cases h : sentQualifies s = true
    · rw [if_pos h, List.find?_cons_of_pos _ h]
    · rw [if_neg h, List.find?_cons_of_neg _ (by simpa using h), ih]

/-- C9 (amended): the context sentence comes from a ±1000-character window
split at sentence punctuation, selecting the first among the first THREE
sentences that both exceeds 50 characters and contains an
occupancy-relevant keyword, falling back to the window's first sentence
when none of those three qualifies. -/
theorem C9_sentence_selection_amended (text : Str) (ms me : ℕ) :
    selectSentence text ms me =
      match ((splitSent ((text.take (min (me + 1000) text.length)).drop
          (ms - 1000))).take 3).find? sentQualifies with
      | some s => s ++ ['.']
      | none => (splitSent ((text.take (min (me + 1000) text.length)).drop
          (ms - 1000))).headD [] ++ ['.'] := by
  rw [selectSentence, pickSent_eq]

/-! ### C10 -/

theorem findSome?_map_comp {α β γ : Type} (l : List α) (g : α → Option β)
    (h : β → γ) :
    l.findSome? (fun a => (g a).map h) = (l.findSome? g).map h := by
  induction l with
  | nil => rfl
  | cons a as ih =>
    rw [List.findSome?_cons, List.findSome?_cons]
    rcases hg : g a with _ | b
    · rw [Option.map_none']
      exact ih
    · rw [Option.map_some']

/-- The table-phrase stage is the claim-side first qualifying value, mapped
onto its result record. -/
theorem tablePhraseR_eq (t f u text : Str) :
    tablePhraseR t f u text = (tablePhraseValue text).map (fun v =>
      ⟨t, round1 v, "TABLE (".toList ++ f ++ ")".toList,
        "Percent leased: ".toList ++ fmt1 v ++
          "% (from portfolio summary)".toList, u⟩) := by
  rw [tablePhraseR, tablePhraseValue]
  rw [← findSome?_map_comp]
  congr 1
  funext cap
  by_cases h : 90 ≤ parseNum cap ∧ parseNum cap ≤ 100
  · simp only [if_pos h, Option.map_some']
  · simp only [if_neg h, Option.map_none']

/-- C10: on a document whose structured, tabular, proximity and consensus
stages all yield nothing, the table-phrase strategy runs before the pattern
library; the first phrase match whose value lies in `[90,100]` returns
immediately with the "TABLE" source label and its value rounded to ONE
decimal place (unlike the two-decimal rounding of the other strategies),
and the pattern library runs only when no phrase match qualifies. -/
theorem C10_table_phrase_stage (t f u : Str) (d : Document)
    (h1 : structuredR t f u d.facts = none)
    (h2 : consensusR t f u d = none) :
    (∀ v, tablePhraseValue d.text = some v →
      evalDocument t f u d = some ⟨t, round1 v,
        "TABLE (".toList ++ f ++ ")".toList,
        "Percent leased: ".toList ++ fmt1 v ++
          "% (from portfolio summary)".toList, u⟩)
    ∧ (tablePhraseValue d.text = none →
      evalDocument t f u d = patternR t f u d.text) := by
  constructor
  · intro v hv
    rw [evalDocument, h1, h2, tablePhraseR_eq, hv, Option.map_some']
  · intro hv
    rw [evalDocument, h1, h2, tablePhraseR_eq, hv, Option.map_none']

set_option maxRecDepth 40000 in
/-- C10 witness: on the document `D2` (structured and consensus stages
empty) the table-phrase stage fires with the value 95, source "TABLE". -/
theorem C10_table_phrase_stage_witness :
    evalDocument tkW fmW urW D2 = some ⟨tkW, round1 95,
      "TABLE (".toList ++ fmW ++ ")".toList,
      "Percent leased: ".toList ++ fmt1 95 ++
        "% (from portfolio summary)".toList, urW⟩ :=
  (C10_table_phrase_stage tkW fmW urW D2 (by decide) (by decide)).1 95
    (by decide)
